import Mathlib

/-!
Verification development for the scholar-reader citation-aggregation and
metadata-enrichment core (src/api/src/queries.ts and src/api/src/s2-api.ts).
The TypeScript is shallowly embedded: the JS object `CitationsById` becomes an
insertion-ordered association list, the aggregation loop becomes a fold, and
the per-identifier fetch becomes a pure function of an abstract service.
-/

namespace ScholarReader

/-- Embeds the `BoundingBox` interface of queries.ts: five numeric fields.
Equality between boxes (lodash `_.isEqual`) is structural over all fields. -/
structure BoundingBox where
  page : Int
  left : Int
  top : Int
  width : Int
  height : Int
deriving DecidableEq

/-- Embeds the `Citation` interface of queries.ts: a list of deduplicated
bounding boxes and a list of deduplicated cited-paper identifiers. -/
structure Citation where
  bounding_boxes : List BoundingBox
  papers : List String
deriving DecidableEq

/-- Embeds `CitationsById = { [id: string]: Citation }`: a JS object with
string keys, modelled as an insertion-ordered association list whose keys
are unique by construction of the aggregation loop. -/
abbrev CitationsById := List (String × Citation)

/-- Embeds one row of the join result consumed by `getCitationsForPaper`:
`citation_id`, `cited_paper_id` and the five bounding-box columns. -/
structure Row where
  citation_id : String
  cited_paper_id : String
  page : Int
  left : Int
  top : Int
  width : Int
  height : Int
deriving DecidableEq

/-- Embeds the construction of `bounding_box` from a row inside the loop of
`getCitationsForPaper`. -/
def boxOfRow (row : Row) : BoundingBox :=
  { page := row.page, left := row.left, top := row.top,
    width := row.width, height := row.height }

/-- Embeds `add_paper` of queries.ts: push `s2Id` onto `citation.papers`
only when `indexOf` finds no occurrence. -/
def add_paper (citation : Citation) (s2Id : String) : Citation :=
  if s2Id ∈ citation.papers then citation
  else { citation with papers := citation.papers ++ [s2Id] }

/-- Embeds `add_bounding_box` of queries.ts: push `box` onto
`citation.bounding_boxes` only when no existing box is `_.isEqual` to it. -/
def add_bounding_box (citation : Citation) (box : BoundingBox) : Citation :=
  if box ∈ citation.bounding_boxes then citation
  else { citation with bounding_boxes := citation.bounding_boxes ++ [box] }

/-- Embeds JS property lookup `citations[key]` / `citations.hasOwnProperty(key)`
on the association-list model of the object. -/
def findCitation (citations : CitationsById) (key : String) : Option Citation :=
  match citations with
  | [] => none
  | (k, c) :: rest => if k = key then some c else findCitation rest key

/-- Embeds the JS mutation `citations[key] = ...` on the association-list
model: rewrite the entry (or entries, vacuously, since keys stay unique)
whose key matches. -/
def updateCitation : CitationsById → String → (Citation → Citation) → CitationsById
  | [], _, _ => []
  | (k, c) :: rest, key, f =>
    if k = key then (k, f c) :: updateCitation rest key f
    else (k, c) :: updateCitation rest key f

/-- Embeds one iteration of the row loop in `getCitationsForPaper`: create the
entry for `row.citation_id` when absent (JS objects append new keys in
insertion order), then apply `add_paper` and `add_bounding_box` to it. -/
def aggregateStep (citations : CitationsById) (row : Row) : CitationsById :=
  let citations :=
    if (findCitation citations row.citation_id).isSome then citations
    else citations ++ [(row.citation_id, { bounding_boxes := [], papers := [] })]
  updateCitation citations row.citation_id fun c =>
    add_bounding_box (add_paper c row.cited_paper_id) (boxOfRow row)

/-- Embeds the aggregation pass of `getCitationsForPaper`: fold the row
sequence over `aggregateStep` starting from the empty object. -/
def aggregate (rows : List Row) : CitationsById :=
  rows.foldl aggregateStep []

/-- Embeds the return value of `getCitationsForPaper`:
`Object.values(citations)` after the aggregation pass. -/
def getCitationsForPaper (rows : List Row) : List Citation :=
  (aggregate rows).map Prod.snd

/-- Keys of the association-list model of a JS object, in insertion order. -/
def keysOf (citations : CitationsById) : List String :=
  citations.map Prod.fst

/-- Order-of-first-appearance deduplication of a list, used to state the
spec's `papers` ordering contract. -/
def firstOccurrences (l : List String) : List String :=
  l.foldl (fun acc x => if x ∈ acc then acc else acc ++ [x]) []

/-- Builds the row carrying citation `cid`, cited paper `p` and box `b`. -/
def rowOfBox (cid p : String) (b : BoundingBox) : Row :=
  { citation_id := cid, cited_paper_id := p, page := b.page,
    left := b.left, top := b.top, width := b.width, height := b.height }

theorem boxOfRow_rowOfBox (cid p : String) (b : BoundingBox) :
    boxOfRow (rowOfBox cid p b) = b := by
  cases b
  rfl

theorem rowOfBox_citation_id (cid p : String) (b : BoundingBox) :
    (rowOfBox cid p b).citation_id = cid := rfl

theorem rowOfBox_cited_paper_id (cid p : String) (b : BoundingBox) :
    (rowOfBox cid p b).cited_paper_id = p := rfl

theorem findCitation_isSome_iff_mem_keys (m : CitationsById) (k : String) :
    (findCitation m k).isSome ↔ k ∈ keysOf m := by
  induction m with
  | nil => simp [findCitation, keysOf]
  | cons e rest ih =>
    obtain ⟨k', c⟩ := e
    by_cases h : k' = k
    · subst h
      simp [findCitation, keysOf]
    · simp [findCitation, keysOf, h, ih, Ne.symm h]

theorem findCitation_append_of_some (m l : CitationsById) (k : String)
    (c : Citation) (h : findCitation m k = some c) :
    findCitation (m ++ l) k = some c := by
  induction m with
  | nil => simp [findCitation] at h
  | cons e rest ih =>
    obtain ⟨k', c'⟩ := e
    by_cases hk : k' = k
    · subst hk
      simp [findCitation] at h ⊢
      exact h
    · simp [findCitation, hk] at h ⊢
      exact ih h

theorem findCitation_append_of_none (m l : CitationsById) (k : String)
    (h : findCitation m k = none) :
    findCitation (m ++ l) k = findCitation l k := by
  induction m with
  | nil => simp
  | cons e rest ih =>
    obtain ⟨k', c'⟩ := e
    by_cases hk : k' = k
    · subst hk
      simp [findCitation] at h
    · simp [findCitation, hk] at h ⊢
      exact ih h

theorem findCitation_updateCitation_self (m : CitationsById) (key : String)
    (f : Citation → Citation) :
    findCitation (updateCitation m key f) key = (findCitation m key).map f := by
  induction m with
  | nil => simp [findCitation, updateCitation]
  | cons e rest ih =>
    obtain ⟨k', c⟩ := e
    by_cases hk : k' = key
    · subst hk
      simp [findCitation, updateCitation, ih]
    · simp [findCitation, updateCitation, hk, ih]

theorem findCitation_updateCitation_ne (m : CitationsById) (key k : String)
    (f : Citation → Citation) (h : k ≠ key) :
    findCitation (updateCitation m key f) k = findCitation m k := by
  induction m with
  | nil => simp [findCitation, updateCitation]
  | cons e rest ih =>
    obtain ⟨k', c⟩ := e
    by_cases hk : k' = key
    · subst hk
      simp [findCitation, updateCitation, Ne.symm h, ih]
    · by_cases hkk : k' = k
      · subst hkk
        simp [findCitation, updateCitation, hk, ih]
      · simp [findCitation, updateCitation, hk, hkk, ih]

theorem aggregateStep_find_self (m : CitationsById) (row : Row) :
    findCitation (aggregateStep m row) row.citation_id
      = some (add_bounding_box
          (add_paper ((findCitation m row.citation_id).getD
              { bounding_boxes := [], papers := [] }) row.cited_paper_id)
          (boxOfRow row)) := by
  unfold aggregateStep
  cases h : findCitation m row.citation_id with
  | some c =>
    simp [h, findCitation_updateCitation_self]
  | none =>
    have hfind : findCitation (m ++ [(row.citation_id,
        ({ bounding_boxes := [], papers := [] } : Citation))]) row.citation_id
        = some { bounding_boxes := [], papers := [] } := by
      rw [findCitation_append_of_none m _ _ h]
      simp [findCitation]
    simp only [h, Option.isSome_none, Bool.false_eq_true, if_false]
    rw [findCitation_updateCitation_self, hfind]
    simp

theorem aggregateStep_find_ne (m : CitationsById) (row : Row) (k : String)
    (h : k ≠ row.citation_id) :
    findCitation (aggregateStep m row) k = findCitation m k := by
  unfold aggregateStep
  cases hm : findCitation m row.citation_id with
  | some c =>
    simp only [hm, Option.isSome_some, if_true]
    exact findCitation_updateCitation_ne m _ k _ h
  | none =>
    simp only [hm, Option.isSome_none, Bool.false_eq_true, if_false]
    rw [findCitation_updateCitation_ne _ _ _ _ h]
    cases hk : findCitation m k with
    | some c => exact findCitation_append_of_some m _ k c hk
    | none =>
      rw [findCitation_append_of_none m _ _ hk]
      simp [findCitation, Ne.symm h]

theorem keysOf_updateCitation (m : CitationsById) (key : String)
    (f : Citation → Citation) :
    keysOf (updateCitation m key f) = keysOf m := by
  induction m with
  | nil => rfl
  | cons e rest ih =>
    obtain ⟨k', c⟩ := e
    simp only [keysOf] at ih ⊢
    by_cases hk : k' = key
    · simp [updateCitation, hk, ih]
    · simp [updateCitation, hk, ih]

theorem keysOf_aggregateStep (m : CitationsById) (row : Row) :
    keysOf (aggregateStep m row)
      = if (findCitation m row.citation_id).isSome then keysOf m
        else keysOf m ++ [row.citation_id] := by
  unfold aggregateStep
  cases h : findCitation m row.citation_id with
  | some c =>
    simp only [h, Option.isSome_some, if_true]
    rw [keysOf_updateCitation]
  | none =>
    simp only [h, Option.isSome_none, Bool.false_eq_true, if_false]
    rw [keysOf_updateCitation]
    simp [keysOf]

theorem aggregateStep_isSome (m : CitationsById) (row : Row) (k : String) :
    (findCitation (aggregateStep m row) k).isSome
      ↔ ((findCitation m k).isSome ∨ k = row.citation_id) := by
  by_cases hk : k = row.citation_id
  · subst hk
    simp [aggregateStep_find_self]
  · rw [aggregateStep_find_ne m row k hk]
    simp [hk]

theorem keysOf_aggregateStep_nodup (m : CitationsById) (row : Row)
    (h : (keysOf m).Nodup) : (keysOf (aggregateStep m row)).Nodup := by
  rw [keysOf_aggregateStep]
  cases hf : findCitation m row.citation_id with
  | some c => simpa using h
  | none =>
    have hmem : row.citation_id ∉ keysOf m := by
      rw [← findCitation_isSome_iff_mem_keys, hf]
      simp
    simp [List.nodup_append, h, hmem]

theorem aggregate_foldl_invariant (rows : List Row) :
    ∀ m : CitationsById, (keysOf m).Nodup →
      (keysOf (rows.foldl aggregateStep m)).Nodup
      ∧ ∀ k, ((findCitation (rows.foldl aggregateStep m) k).isSome
          ↔ ((findCitation m k).isSome ∨ k ∈ rows.map Row.citation_id)) := by
  induction rows with
  | nil => intro m h; simpa using h
  | cons row rest ih =>
    intro m h
    obtain ⟨hnodup, hiff⟩ := ih (aggregateStep m row) (keysOf_aggregateStep_nodup m row h)
    refine ⟨hnodup, fun k => ?_⟩
    rw [List.foldl_cons] at *
    rw [hiff k, aggregateStep_isSome]
    simp [or_assoc, List.mem_cons]

theorem add_paper_papers (c : Citation) (p : String) :
    (add_paper c p).papers
      = if p ∈ c.papers then c.papers else c.papers ++ [p] := by
  unfold add_paper
  split <;> rfl

theorem add_paper_boxes (c : Citation) (p : String) :
    (add_paper c p).bounding_boxes = c.bounding_boxes := by
  unfold add_paper
  split <;> rfl

theorem add_bounding_box_boxes (c : Citation) (b : BoundingBox) :
    (add_bounding_box c b).bounding_boxes
      = if b ∈ c.bounding_boxes then c.bounding_boxes
        else c.bounding_boxes ++ [b] := by
  unfold add_bounding_box
  split <;> rfl

theorem add_bounding_box_papers (c : Citation) (b : BoundingBox) :
    (add_bounding_box c b).papers = c.papers := by
  unfold add_bounding_box
  split <;> rfl

theorem add_both_of_same_box (b : BoundingBox) (l : List String) (p : String) :
    add_bounding_box (add_paper ⟨[b], l⟩ p) b
      = ⟨[b], if p ∈ l then l else l ++ [p]⟩ := by
  unfold add_paper add_bounding_box
  by_cases hp : p ∈ l <;> simp [hp]

theorem aggregate_same_cid_go (cid : String) (b : BoundingBox) (ps : List String) :
    ∀ (m : CitationsById) (l : List String),
      findCitation m cid = some ⟨[b], l⟩ →
      findCitation ((ps.map fun p => rowOfBox cid p b).foldl aggregateStep m) cid
        = some ⟨[b], ps.foldl (fun acc x => if x ∈ acc then acc else acc ++ [x]) l⟩ := by
  induction ps with
  | nil => intro m l h; simpa using h
  | cons p rest ih =>
    intro m l h
    have hstep : findCitation (aggregateStep m (rowOfBox cid p b)) cid
        = some ⟨[b], if p ∈ l then l else l ++ [p]⟩ := by
      have hthis := aggregateStep_find_self m (rowOfBox cid p b)
      simp only [rowOfBox_citation_id, rowOfBox_cited_paper_id,
        boxOfRow_rowOfBox] at hthis
      rw [h] at hthis
      simpa [add_both_of_same_box] using hthis
    simp only [List.map_cons, List.foldl_cons]
    rw [ih _ _ hstep]

theorem aggregate_same_cid_cons (cid : String) (b : BoundingBox) (p : String)
    (rest : List String) :
    findCitation (aggregate ((p :: rest).map fun q => rowOfBox cid q b)) cid
      = some ⟨[b], firstOccurrences (p :: rest)⟩ := by
  have hbase : findCitation (aggregateStep [] (rowOfBox cid p b)) cid
      = some ⟨[b], [p]⟩ := by
    have hthis := aggregateStep_find_self [] (rowOfBox cid p b)
    simp only [rowOfBox_citation_id, rowOfBox_cited_paper_id, boxOfRow_rowOfBox,
      findCitation, Option.getD_none] at hthis
    simpa [add_paper, add_bounding_box] using hthis
  unfold aggregate firstOccurrences
  simp only [List.map_cons, List.foldl_cons]
  rw [aggregate_same_cid_go cid b rest _ _ hbase]
  simp

/-- C1: aggregation over any finite row sequence yields a mapping from
citation identifier to Citation whose keys are unique, with exactly one
entry per distinct `citation_id` occurring in the input rows; each entry
pairs the identifier with its Citation aggregate. -/
theorem aggregate_citations_by_id (rows : List Row) :
    (keysOf (aggregate rows)).Nodup
    ∧ ∀ k, ((findCitation (aggregate rows) k).isSome
        ↔ k ∈ rows.map Row.citation_id) := by
  obtain ⟨h1, h2⟩ := aggregate_foldl_invariant rows [] (by simp [keysOf])
  refine ⟨h1, fun k => ?_⟩
  unfold aggregate
  rw [h2 k]
  simp [findCitation]

theorem foldl_pushIfNew_replicate (p : String) :
    ∀ (m : Nat) (l : List String), p ∈ l →
      List.foldl (fun acc x => if x ∈ acc then acc else acc ++ [x]) l
        (List.replicate m p) = l := by
  intro m
  induction m with
  | zero => intro l _; rfl
  | succ k ih =>
    intro l h
    rw [List.replicate_succ, List.foldl_cons, if_pos h]
    exact ih l h

theorem firstOccurrences_cons_replicate (p : String) (m : Nat) :
    firstOccurrences (p :: List.replicate m p) = [p] := by
  unfold firstOccurrences
  rw [List.foldl_cons, if_neg (List.not_mem_nil p), List.nil_append]
  exact foldl_pushIfNew_replicate p m [p] (List.mem_singleton.mpr rfl)

theorem add_paper_nodup (c : Citation) (p : String) (h : c.papers.Nodup) :
    (add_paper c p).papers.Nodup := by
  by_cases hp : p ∈ c.papers
  · simpa [add_paper_papers, hp] using h
  · simp [add_paper_papers, hp, List.nodup_append, h]

theorem add_bounding_box_nodup (c : Citation) (b : BoundingBox)
    (h : c.bounding_boxes.Nodup) : (add_bounding_box c b).bounding_boxes.Nodup := by
  by_cases hb : b ∈ c.bounding_boxes
  · simpa [add_bounding_box_boxes, hb] using h
  · simp [add_bounding_box_boxes, hb, List.nodup_append, h]

theorem aggregateStep_wf (m : CitationsById) (row : Row)
    (hm : ∀ k c, findCitation m k = some c →
      c.papers.Nodup ∧ c.bounding_boxes.Nodup) :
    ∀ k c, findCitation (aggregateStep m row) k = some c →
      c.papers.Nodup ∧ c.bounding_boxes.Nodup := by
  intro k c h
  by_cases hk : k = row.citation_id
  · subst hk
    rw [aggregateStep_find_self] at h
    have h0 : ((findCitation m row.citation_id).getD ⟨[], []⟩).papers.Nodup
        ∧ ((findCitation m row.citation_id).getD ⟨[], []⟩).bounding_boxes.Nodup := by
      cases hf : findCitation m row.citation_id with
      | none => simp [hf]
      | some c0 => simpa [hf] using hm row.citation_id c0 hf
    rw [← Option.some.inj h]
    constructor
    · rw [add_bounding_box_papers]
      exact add_paper_nodup _ _ h0.1
    · apply add_bounding_box_nodup
      rw [add_paper_boxes]
      exact h0.2
  · rw [aggregateStep_find_ne m row k hk] at h
    exact hm k c h

theorem aggregate_wf_go (rows : List Row) :
    ∀ m : CitationsById,
      (∀ k c, findCitation m k = some c →
        c.papers.Nodup ∧ c.bounding_boxes.Nodup) →
      ∀ k c, findCitation (rows.foldl aggregateStep m) k = some c →
        c.papers.Nodup ∧ c.bounding_boxes.Nodup := by
  induction rows with
  | nil => intro m hm; exact hm
  | cons row rest ih =>
    intro m hm
    rw [List.foldl_cons]
    exact ih _ (aggregateStep_wf m row hm)

/-- C3: aggregating the two-row input that repeats the same box for the same
citation under two different cited papers yields one citation `c1` with
`papers = [p1, p2]` and exactly one bounding box; in general, rows for one
citation that differ only in the paper while repeating the same box produce
a single stored box, not one per row. -/
theorem aggregate_fanout_single_box :
    aggregate [⟨"c1", "p1", 0, 1, 2, 3, 4⟩, ⟨"c1", "p2", 0, 1, 2, 3, 4⟩]
      = [("c1", ⟨[⟨0, 1, 2, 3, 4⟩], ["p1", "p2"]⟩)]
    ∧ ∀ (cid : String) (b : BoundingBox) (ps : List String) (citn : Citation),
        findCitation (aggregate (ps.map fun p => rowOfBox cid p b)) cid
          = some citn →
        citn.bounding_boxes = [b] := by
  constructor
  · decide
  · intro cid b ps citn h
    cases ps with
    | nil => simp [aggregate, findCitation] at h
    | cons p rest =>
      rw [aggregate_same_cid_cons] at h
      rw [← Option.some.inj h]

/-- Witness for C3: the general one-box property applied to the concrete
fan-out input of the scenario. -/
theorem aggregate_fanout_single_box_witness :
    (⟨[⟨0, 1, 2, 3, 4⟩], ["p1", "p2"]⟩ : Citation).bounding_boxes
      = [⟨0, 1, 2, 3, 4⟩] :=
  aggregate_fanout_single_box.2 "c1" ⟨0, 1, 2, 3, 4⟩ ["p1", "p2"]
    ⟨[⟨0, 1, 2, 3, 4⟩], ["p1", "p2"]⟩ (by decide)

/-- C4: bounding-box deduplication is exact structural equality: a candidate
box collapses into an existing stored box if and only if all five fields
agree, and a box differing in any field is kept alongside the existing one. -/
theorem add_bounding_box_structural (b b' : BoundingBox) (ps : List String) :
    (add_bounding_box ⟨[b'], ps⟩ b).bounding_boxes
      = if b.page = b'.page ∧ b.left = b'.left ∧ b.top = b'.top
           ∧ b.width = b'.width ∧ b.height = b'.height
        then [b'] else [b', b] := by
  cases b with
  | mk bp bl bt bw bh =>
    cases b' with
    | mk cp cl ct cw ch =>
      by_cases hc : bp = cp ∧ bl = cl ∧ bt = ct ∧ bw = cw ∧ bh = ch
      · obtain ⟨rfl, rfl, rfl, rfl, rfl⟩ := hc
        simp [add_bounding_box]
      · rw [if_neg hc]
        have hmem : (⟨bp, bl, bt, bw, bh⟩ : BoundingBox)
            ∉ ([⟨cp, cl, ct, cw, ch⟩] : List BoundingBox) := by
          simpa [BoundingBox.mk.injEq] using hc
        unfold add_bounding_box
        rw [if_neg hmem]
        rfl

/-- C5: the papers list of a citation's aggregate is the order of first
appearance of its cited papers: the concrete order [P1, P2, P1, P3] yields
exactly [P1, P2, P3], and in general the resulting list is the
first-occurrence deduplication of the supplied paper order. -/
theorem aggregate_papers_first_appearance :
    findCitation (aggregate (["P1", "P2", "P1", "P3"].map
        fun p => rowOfBox "c1" p ⟨0, 1, 2, 3, 4⟩)) "c1"
      = some ⟨[⟨0, 1, 2, 3, 4⟩], ["P1", "P2", "P3"]⟩
    ∧ ∀ (cid : String) (b : BoundingBox) (ps : List String) (citn : Citation),
        findCitation (aggregate (ps.map fun p => rowOfBox cid p b)) cid
          = some citn →
        citn.papers = firstOccurrences ps := by
  constructor
  · decide
  · intro cid b ps citn h
    cases ps with
    | nil => simp [aggregate, findCitation] at h
    | cons p rest =>
      rw [aggregate_same_cid_cons] at h
      rw [← Option.some.inj h]

/-- Witness for C5: the first-appearance property applied to the concrete
order [P1, P2, P1, P3]. -/
theorem aggregate_papers_first_appearance_witness :
    (⟨[⟨0, 1, 2, 3, 4⟩], ["P1", "P2", "P3"]⟩ : Citation).papers
      = firstOccurrences ["P1", "P2", "P1", "P3"] :=
  aggregate_papers_first_appearance.2 "c1" ⟨0, 1, 2, 3, 4⟩
    ["P1", "P2", "P1", "P3"] ⟨[⟨0, 1, 2, 3, 4⟩], ["P1", "P2", "P3"]⟩ (by decide)

/-- C6: aggregation is deterministic (equal runs on equal input give
structurally equal maps), and its deduplication is idempotent: feeding the
same (citation, paper) pair any positive number of times yields exactly one
entry in that citation's papers. -/
theorem aggregate_deterministic_idempotent :
    (∀ rows : List Row, aggregate rows = aggregate rows)
    ∧ ∀ (n : Nat) (cid p : String) (b : BoundingBox) (citn : Citation),
        1 ≤ n →
        findCitation (aggregate (List.replicate n (rowOfBox cid p b))) cid
          = some citn →
        citn.papers = [p] := by
  refine ⟨fun _ => rfl, ?_⟩
  intro n cid p b citn hn h
  obtain ⟨m, rfl⟩ : ∃ m, n = m + 1 := ⟨n - 1, by omega⟩
  have hrw : List.replicate (m + 1) (rowOfBox cid p b)
      = ((p :: List.replicate m p).map fun q => rowOfBox cid q b) := by
    simp [List.map_replicate, List.replicate_succ]
  rw [hrw, aggregate_same_cid_cons] at h
  rw [← Option.some.inj h]
  exact congrArg Citation.papers
    (congrArg (fun l => (⟨[b], l⟩ : Citation)) (firstOccurrences_cons_replicate p m))

/-- Witness for C6: three repetitions of the same (citation, paper) pair
leave exactly one entry in papers. -/
theorem aggregate_deterministic_idempotent_witness :
    (⟨[⟨0, 1, 2, 3, 4⟩], ["p1"]⟩ : Citation).papers = ["p1"] :=
  aggregate_deterministic_idempotent.2 3 "c1" "p1" ⟨0, 1, 2, 3, 4⟩
    ⟨[⟨0, 1, 2, 3, 4⟩], ["p1"]⟩ (by decide) (by decide)

/-- C7: at every point of an aggregation pass, every Citation in the map has
duplicate-free papers and duplicate-free bounding boxes, and a step of the
pass never deletes an existing entry — it only appends to its lists. -/
theorem aggregate_step_invariants :
    (∀ (rows : List Row) (k : String) (c : Citation),
        findCitation (aggregate rows) k = some c →
        c.papers.Nodup ∧ c.bounding_boxes.Nodup)
    ∧ ∀ (m : CitationsById) (row : Row) (k : String) (c : Citation),
        findCitation m k = some c →
        ∃ c2, findCitation (aggregateStep m row) k = some c2
          ∧ (∃ t, c2.papers = c.papers ++ t)
          ∧ (∃ t, c2.bounding_boxes = c.bounding_boxes ++ t) := by
  constructor
  · intro rows k c h
    refine aggregate_wf_go rows [] ?_ k c h
    intro k c h
    simp [findCitation] at h
  · intro m row k c h
    by_cases hk : k = row.citation_id
    · subst hk
      have hfind := aggregateStep_find_self m row
      rw [h, Option.getD_some] at hfind
      refine ⟨_, hfind, ?_, ?_⟩
      · rw [add_bounding_box_papers, add_paper_papers]
        by_cases hp : row.cited_paper_id ∈ c.papers
        · exact ⟨[], by simp [hp]⟩
        · exact ⟨[row.cited_paper_id], by simp [hp]⟩
      · rw [add_bounding_box_boxes, add_paper_boxes]
        by_cases hb : boxOfRow row ∈ c.bounding_boxes
        · exact ⟨[], by simp [hb]⟩
        · exact ⟨[boxOfRow row], by simp [hb]⟩
    · rw [aggregateStep_find_ne m row k hk]
      exact ⟨c, h, ⟨[], by simp⟩, ⟨[], by simp⟩⟩

/-- Witness for C7: the invariant evaluated on a concrete one-row pass. -/
theorem aggregate_step_invariants_witness :
    (["p1"] : List String).Nodup
      ∧ ([⟨0, 1, 2, 3, 4⟩] : List BoundingBox).Nodup :=
  aggregate_step_invariants.1 [⟨"c1", "p1", 0, 1, 2, 3, 4⟩] "c1"
    ⟨[⟨0, 1, 2, 3, 4⟩], ["p1"]⟩ (by decide)

/-- Embeds the author element shape of the `S2ApiPaper` payload used by
`getPaper`: an author object exposing a display name. -/
structure S2ApiAuthor where
  name : String
deriving DecidableEq

/-- Embeds the `S2ApiPaper` payload shape consumed by `getPaper`: title,
authors, abstract, url, venue, and the year as a string. -/
structure S2ApiPaper where
  title : String
  authors : List S2ApiAuthor
  abstract : Option String
  url : String
  venue : Option String
  year : String
deriving DecidableEq

/-- Embeds the `Paper` interface of s2-api.ts; nullable fields become
`Option`. -/
structure Paper where
  s2Id : String
  title : String
  authors : String
  abstract : Option String
  url : String
  venue : Option String
  year : Option Int
deriving DecidableEq

/-- Whitespace skipped by the JS builtin `parseInt` before the number
(common subset: space, tab, line feed, carriage return, vertical tab,
form feed). -/
def isJsSpace (c : Char) : Bool :=
  c = ' ' || c = '\t' || c = '\n' || c = '\r'
    || c = Char.ofNat 11 || c = Char.ofNat 12

/-- Value of a decimal digit, when `c` is one. -/
def decDigitVal (c : Char) : Option Nat :=
  if '0' ≤ c ∧ c ≤ '9' then some (c.toNat - '0'.toNat) else none

/-- Value of a hexadecimal digit, when `c` is one. -/
def hexDigitVal (c : Char) : Option Nat :=
  if '0' ≤ c ∧ c ≤ '9' then some (c.toNat - '0'.toNat)
  else if 'a' ≤ c ∧ c ≤ 'f' then some (c.toNat - 'a'.toNat + 10)
  else if 'A' ≤ c ∧ c ≤ 'F' then some (c.toNat - 'A'.toNat + 10)
  else none

/-- Accumulates the longest leading digit run; stops at the first non-digit,
as JS `parseInt` ignores trailing characters. -/
def parseDigitsGo (digitVal : Char → Option Nat) (base : Nat) :
    List Char → Nat → Nat
  | [], acc => acc
  | c :: rest, acc =>
    match digitVal c with
    | some d => parseDigitsGo digitVal base rest (acc * base + d)
    | none => acc

/-- Parses a digit run in the given base; an empty run is NaN (none). -/
def parseRadix (digitVal : Char → Option Nat) (base : Nat)
    (cs : List Char) : Option Nat :=
  match cs with
  | [] => none
  | c :: rest =>
    match digitVal c with
    | some d => some (parseDigitsGo digitVal base rest d)
    | none => none

/-- Magnitude part of `parseInt` with no radix argument: an optional 0x/0X
marker selects base 16, otherwise base 10. -/
def parseUnsigned (cs : List Char) : Option Nat :=
  match cs with
  | '0' :: 'x' :: rest => parseRadix hexDigitVal 16 rest
  | '0' :: 'X' :: rest => parseRadix hexDigitVal 16 rest
  | _ => parseRadix decDigitVal 10 cs

/-- Models the JS builtin `parseInt` applied by getPaper to the year string:
skip leading whitespace, read an optional sign, then the longest digit run;
`none` stands for NaN. -/
def parseIntJS (s : String) : Option Int :=
  match s.data.dropWhile isJsSpace with
  | '-' :: rest => (parseUnsigned rest).map fun n => -(n : Int)
  | '+' :: rest => (parseUnsigned rest).map fun n => (n : Int)
  | rest => (parseUnsigned rest).map fun n => (n : Int)

/-- Embeds `parseInt(data.year) || null` of getPaper: JS `||` replaces a
falsy left operand with the right one, and both NaN (a failed parse) and 0
are falsy numbers. -/
def yearOfString (year : String) : Option Int :=
  match parseIntJS year with
  | none => none
  | some n => if n = 0 then none else some n

/-- Modelled from the spec: the response classification that
`isS2ApiResponseSuccess` performs (src/api/src/types/s2-api is not present
under src/). Per the spec, a request either fails at transport level
(network error, the axios catch branch), or returns a response lacking a
recognizable success marker (non-success status or malformed payload), or
returns a success envelope carrying the typed payload. -/
inductive FetchOutcome where
  | networkError
  | unsuccessful
  | success (data : S2ApiPaper)
deriving DecidableEq

/-- Embeds `getPaper` of s2-api.ts as a function of an abstract service
giving one outcome per identifier: a thrown request or a non-success
response yields `undefined` (none); a success payload is mapped field by
field, the year through `parseInt(data.year) || null` and the authors
through `map(a => a.name).join(", ")`. -/
def getPaper (service : String → FetchOutcome) (s2Id : String) : Option Paper :=
  match service s2Id with
  | .networkError => none
  | .unsuccessful => none
  | .success data =>
    some { s2Id := s2Id, title := data.title,
           authors := String.intercalate ", " (data.authors.map S2ApiAuthor.name),
           abstract := data.abstract, url := data.url,
           year := yearOfString data.year, venue := data.venue }

/-- Embeds `getPapers` of s2-api.ts: issue one request per identifier (the
awaited Promise.all preserves the input order), then keep the results that
are not `undefined`. -/
def getPapers (service : String → FetchOutcome) (s2Ids : List String) : List Paper :=
  (s2Ids.map fun s2Id => getPaper service s2Id).filterMap fun r => r

/-- Formalises the spec wording for the authors display string: the author
display names in source order, joined with a comma and a space. -/
def specJoinCommaSpace : List String → String
  | [] => ""
  | [a] => a
  | a :: rest => a ++ ", " ++ specJoinCommaSpace rest

theorem intercalate_go_spec (l : List String) :
    ∀ acc : String, String.intercalate.go acc ", " l
      = specJoinCommaSpace (acc :: l) := by
  induction l with
  | nil => intro acc; rfl
  | cons a as ih =>
    intro acc
    rw [String.intercalate.go, ih (acc ++ ", " ++ a)]
    cases as with
    | nil => rfl
    | cons b bs =>
      simp only [specJoinCommaSpace, String.append_assoc]

theorem intercalate_comma_space (l : List String) :
    String.intercalate ", " l = specJoinCommaSpace l := by
  cases l with
  | nil => rfl
  | cons a as => exact intercalate_go_spec as a

theorem getPapers_eq (service : String → FetchOutcome) (s2Ids : List String) :
    getPapers service s2Ids = s2Ids.filterMap (getPaper service) := by
  unfold getPapers
  rw [List.filterMap_map]
  simp [Function.comp_def]

theorem getPaper_s2Id (service : String → FetchOutcome) (i : String) (p : Paper)
    (h : getPaper service i = some p) : p.s2Id = i := by
  cases hs : service i with
  | networkError => simp [getPaper, hs] at h
  | unsuccessful => simp [getPaper, hs] at h
  | success data =>
    simp only [getPaper, hs] at h
    rw [← Option.some.inj h]

/-- Sample success payload for the fetcher witnesses. -/
def sampleData : S2ApiPaper :=
  { title := "T", authors := [⟨"Ada"⟩, ⟨"Bob"⟩], abstract := none,
    url := "u", venue := none, year := "2019" }

/-- Sample service for the fetcher witnesses: identifier B fails at the
network level, every other identifier resolves to the sample payload. -/
def sampleService : String → FetchOutcome :=
  fun s2Id =>
    if s2Id = "B" then FetchOutcome.networkError
    else FetchOutcome.success sampleData

/-- Record produced for an identifier resolved through the sample payload. -/
def samplePaper (s2Id : String) : Paper :=
  { s2Id := s2Id, title := "T", authors := "Ada, Bob", abstract := none,
    url := "u", venue := none, year := some 2019 }

/-- C2: getPapers is total for every service behaviour and identifier list —
per-identifier failures (network error, malformed response, non-success
status, all of which make getPaper yield no record) are converted to
omission: the batch equals exactly the per-identifier successes, every
success is kept, and nothing else appears. -/
theorem getPapers_partial_failure (service : String → FetchOutcome)
    (s2Ids : List String) :
    getPapers service s2Ids = s2Ids.filterMap (getPaper service)
    ∧ (∀ i p, i ∈ s2Ids → getPaper service i = some p →
        p ∈ getPapers service s2Ids)
    ∧ (∀ p, p ∈ getPapers service s2Ids →
        ∃ i, i ∈ s2Ids ∧ getPaper service i = some p) := by
  refine ⟨getPapers_eq service s2Ids, ?_, ?_⟩
  · intro i p hi hp
    rw [getPapers_eq]
    exact List.mem_filterMap.mpr ⟨i, hi, hp⟩
  · intro p hp
    rw [getPapers_eq] at hp
    exact List.mem_filterMap.mp hp

/-- Witness for C2: with B failing among A, B, C, the resolution of A still
appears in the batch result. -/
theorem getPapers_partial_failure_witness :
    samplePaper "A" ∈ getPapers sampleService ["A", "B", "C"] :=
  (getPapers_partial_failure sampleService ["A", "B", "C"]).2.1 "A"
    (samplePaper "A") (by decide) (by decide)

/-- C8 counterexample: the year string "0" is parsed successfully to the
integer 0, yet the code stores null for it, so "null exactly when integer
parsing fails" does not hold of the code. -/
theorem year_zero_counterexample :
    yearOfString "0" = none ∧ parseIntJS "0" = some 0 := by
  decide

/-- C8 (amended): the year field becomes null exactly when integer parsing
fails or the parsed integer is 0 (both falsy operands of
`parseInt(data.year) || null`); otherwise it is the parsed integer value,
and the record never fails — in particular year "abc" yields null. -/
theorem year_coercion (s : String) :
    (yearOfString s = none ↔ (parseIntJS s = none ∨ parseIntJS s = some 0))
    ∧ (∀ n : Int, yearOfString s = some n → parseIntJS s = some n)
    ∧ yearOfString "abc" = none := by
  refine ⟨?_, ?_, by decide⟩
  · cases h : parseIntJS s with
    | none => simp [yearOfString, h]
    | some n => by_cases hn : n = 0 <;> simp [yearOfString, h, hn]
  · intro n hn
    cases h : parseIntJS s with
    | none => simp [yearOfString, h] at hn
    | some m =>
      simp only [yearOfString, h] at hn
      by_cases hm : m = 0
      · simp [hm] at hn
      · rw [if_neg hm] at hn
        exact hn

/-- Witness for C8: a regular year string coerces to its integer value. -/
theorem year_coercion_witness : parseIntJS "2019" = some 2019 :=
  (year_coercion "2019").2.1 2019 (by decide)

/-- C9: on every successful service response, the authors field of the
produced record is the comma-and-space join of the author display names in
source order. -/
theorem getPaper_authors_join (service : String → FetchOutcome) (s2Id : String)
    (data : S2ApiPaper) (h : service s2Id = FetchOutcome.success data) :
    (getPaper service s2Id).map Paper.authors
      = some (specJoinCommaSpace (data.authors.map S2ApiAuthor.name)) := by
  simp [getPaper, h, intercalate_comma_space]

/-- Witness for C9: the join evaluated on the sample two-author payload. -/
theorem getPaper_authors_join_witness :
    (getPaper sampleService "A").map Paper.authors
      = some (specJoinCommaSpace (sampleData.authors.map S2ApiAuthor.name)) :=
  getPaper_authors_join sampleService "A" sampleData (by decide)

/-- C10: the batch result lists the resolved records in the relative order
of their identifiers in the input, and each record's s2Id is the identifier
it was requested for. -/
theorem getPapers_order_and_ids (service : String → FetchOutcome)
    (s2Ids : List String) :
    (getPapers service s2Ids).map Paper.s2Id
      = s2Ids.filter fun i => (getPaper service i).isSome := by
  rw [getPapers_eq]
  induction s2Ids with
  | nil => rfl
  | cons i rest ih =>
    rw [List.filterMap_cons, List.filter_cons]
    cases h : getPaper service i with
    | none => simpa [h] using ih
    | some p =>
      have hid : p.s2Id = i := getPaper_s2Id service i p h
      simp [h, hid, ih]

end ScholarReader
